import Mathlib

set_option maxRecDepth 16384

/-!
Shallow embedding of BMtoBMP (`src/include/bm_to_bmp_converter.h`).

Input streams (`FILE *`) are modelled as byte lists (`List Nat`); a value
read as a C `uint8_t` is coerced into `0..255` with `% 256`.  The output
file is modelled by `OutFile` (contents plus a file position) together with
a `cap` parameter: a write of `n` bytes at position `p` completes iff
`p + n ≤ cap`, which models a short `fwrite` (e.g. a full disk).  A failed
write is modelled as writing nothing.  `calloc` is modelled as always
succeeding (memory exhaustion is out of scope; `calloc(0, _)` is modelled
as a usable non-null allocation, as on glibc).  The output filename is
modelled by its length only: the code uses it solely for `strlen` and for
choosing where the bytes go.
-/

/-- One byte read from a stream at absolute position `p` (`fread` of one
`uint8_t`); `none` models a short read at end of stream. -/
def byteAt (s : List Nat) (p : Nat) : Option Nat :=
  (s.get? p).map (fun b => b % 256)

/-- `read_uint32_from_file` at absolute position `p`: four bytes, combined
little-endian (`(b3<<24)|(b2<<16)|(b1<<8)|b0`; for bytes the ORs are sums). -/
def readU32 (s : List Nat) (p : Nat) : Option Nat :=
  match byteAt s p, byteAt s (p+1), byteAt s (p+2), byteAt s (p+3) with
  | some b0, some b1, some b2, some b3 =>
      some (b0 + 256 * b1 + 65536 * b2 + 16777216 * b3)
  | _, _, _, _ => none

/-- Equality of `Except` results is decidable when both components have
decidable equality (needed to evaluate the model on concrete inputs). -/
instance {e a : Type} [DecidableEq e] [DecidableEq a] : DecidableEq (Except e a) :=
  fun x y =>
    match x, y with
    | Except.error e1, Except.error e2 =>
      if h : e1 = e2 then Decidable.isTrue (by rw [h])
      else Decidable.isFalse (fun hh => by cases hh; exact h rfl)
    | Except.ok v1, Except.ok v2 =>
      if h : v1 = v2 then Decidable.isTrue (by rw [h])
      else Decidable.isFalse (fun hh => by cases hh; exact h rfl)
    | Except.error _, Except.ok _ => Decidable.isFalse (fun hh => Except.noConfusion hh)
    | Except.ok _, Except.error _ => Decidable.isFalse (fun hh => Except.noConfusion hh)

/-- Decoder error: which `fread` in `process_image` came up short
(both sites `return -1` in the C source). -/
inductive DecErr
  | truncatedPixelData
  | paletteLookupFailed
deriving DecidableEq, Repr

/-- One pixel of `process_image`'s inner loop: read the palette index from
`bm` at position `p`, `fseek` the palette to `offset * 3`, read the three
color bytes (R, G, B), and produce the stored bytes in B, G, R order
(`data[i][j*3] = color_data[2]` etc. in the source). -/
def decodePixel (bm pal : List Nat) (p : Nat) : Except DecErr (List Nat) :=
  match byteAt bm p with
  | none => Except.error DecErr.truncatedPixelData
  | some offset =>
    match byteAt pal (offset * 3), byteAt pal (offset * 3 + 1),
          byteAt pal (offset * 3 + 2) with
    | some r, some g, some b => Except.ok [b, g, r]
    | _, _, _ => Except.error DecErr.paletteLookupFailed

/-- The inner `for (j ...)` loop of `process_image`: `n` remaining pixels of
one scanline, palette indices read sequentially from `bm` starting at
position `p`; returns the row's stored bytes (three per pixel, ascending
`j`). -/
def readRow (bm pal : List Nat) : Nat → Nat → Except DecErr (List Nat)
  | _, 0 => Except.ok []
  | p, n+1 =>
    match decodePixel bm pal p with
    | Except.error e => Except.error e
    | Except.ok px =>
      match readRow bm pal (p+1) n with
      | Except.error e => Except.error e
      | Except.ok rest => Except.ok (px ++ rest)

/-- The outer `for (i = height-1; i >= 0; i--)` loop of `process_image`:
`m` remaining rows, the next processed row (filled from `bm` position `p`)
being buffer row `m-1`.  The returned list is ordered by buffer row index
(row `0` first), so the row processed first — from the earliest `bm`
bytes — is the **last** element. -/
def readRows (bm pal : List Nat) (w : Nat) : Nat → Nat → Except DecErr (List (List Nat))
  | _, 0 => Except.ok []
  | p, m+1 =>
    match readRow bm pal p w with
    | Except.error e => Except.error e
    | Except.ok r =>
      match readRows bm pal w (p+w) m with
      | Except.error e => Except.error e
      | Except.ok rest => Except.ok (rest ++ [r])

/-- `process_image`: `fseek(bm_file, 0x0C, SEEK_SET)` then the row loops.
The row counter is a C `int32_t` initialized to `height - 1` (a `uint32_t`
value): for `height ≤ 2^31` the loop runs exactly `height` times; for
larger `height` the initializer is negative (gcc wrapping conversion) and
the loop body never runs, leaving the `calloc`-zeroed buffer of `height`
rows of `width * 3` (`uint32_t` product) zero bytes. -/
def process_image (bm pal : List Nat) (w h : Nat) : Except DecErr (List (List Nat)) :=
  if h ≤ 2147483648 then readRows bm pal w 12 h
  else Except.ok (List.replicate h (List.replicate (w * 3 % 4294967296) 0))

/-- `create_image`: two sequential little-endian `uint32_t` reads from the
start of the BM stream (width then height; first failure wins), followed by
`allocate_img_data`, which is modelled as succeeding. -/
def create_image (bm : List Nat) : Option (Nat × Nat) :=
  match readU32 bm 0 with
  | none => none
  | some w =>
    match readU32 bm 4 with
    | none => none
    | some h => some (w, h)

/-- Output file model: the bytes written so far and the file position
(`ftell`).  `fopen(..., "wb")` yields `⟨[], 0⟩`. -/
structure OutFile where
  contents : List Nat
  pos : Nat
deriving DecidableEq, Repr

/-- Overwrite/extend `c` at position `p` with the bytes `bs`. -/
def overwrite (c : List Nat) (p : Nat) (bs : List Nat) : List Nat :=
  c.take p ++ bs ++ c.drop (p + bs.length)

/-- One `fwrite` of `bs.length` bytes against a medium that can hold `cap`
bytes: completes iff the write ends within `cap`; a short write (reported
by `fwrite`'s return value) is modelled as writing nothing. -/
def writeChk (cap : Nat) (f : OutFile) (bs : List Nat) : Option OutFile :=
  if f.pos + bs.length ≤ cap then
    some ⟨overwrite f.contents f.pos bs, f.pos + bs.length⟩
  else none

/-- A sequence of checked `fwrite`s (the `||`-chain in
`output_image_to_file`): stop at the first failure. -/
def writeSeq (cap : Nat) : List (List Nat) → OutFile → Option OutFile
  | [], f => some f
  | bs :: rest, f =>
    match writeChk cap f bs with
    | none => none
    | some f2 => writeSeq cap rest f2

/-- Little-endian serialization of a `uint32_t` (`write_le_int32_to_file`'s
byte array; masking makes `le32 x = le32 (x % 2^32)` automatically). -/
def le32 (x : Nat) : List Nat :=
  [x % 256, x / 256 % 256, x / 65536 % 256, x / 16777216 % 256]

/-- Little-endian serialization of a `uint16_t` (`write_le_int16_to_file`). -/
def le16 (x : Nat) : List Nat :=
  [x % 256, x / 256 % 256]

/-- `ppm_resolution = 0x0B13` (2835) from `output_image_to_file`. -/
def ppm_resolution : Nat := 2835

/-- The 15 header fields written by `output_image_to_file`, in order:
signature, file size (`54 + width*height*3`, `uint32_t` arithmetic),
reserved, pixel array offset `0x36`, DIB header size `0x28`, width, height,
planes, bits per pixel (`3 * 8`), compression, raw pixel data size
(initially 0), the two `ppm_resolution` fields, palette and important
color counts. -/
def headerFields (w h : Nat) : List (List Nat) :=
  [[66, 77],
   le32 (54 + w * h * 3 % 4294967296),
   le32 0,
   le32 54,
   le32 40,
   le32 w,
   le32 h,
   le16 1,
   le16 24,
   le32 0,
   le32 0,
   le32 ppm_resolution,
   le32 ppm_resolution,
   le32 0,
   le32 0]

/-- The 54 header bytes as laid out on disk. -/
def headerBytes (w h : Nat) : List Nat := (headerFields w h).flatten

/-- `pad = (4 - (width * 3) % 4) % 4` (the `uint32_t` wrap of `width * 3`
does not change the residue mod 4, since `4 ∣ 2^32`). -/
def pad32 (w : Nat) : Nat := (4 - (w * 3) % 4) % 4

/-- The `k` loop of the pixel output: three checked one-byte writes of
`img->data[i][j*3 + k]` (row entries are `uint8_t`), stopping at the first
failure. -/
def writePix (cap : Nat) (row : List Nat) (j : Nat) : OutFile → Option OutFile :=
  writeSeq cap
    [[row.getD (j * 3) 0 % 256],
     [row.getD (j * 3 + 1) 0 % 256],
     [row.getD (j * 3 + 2) 0 % 256]]

/-- The `j` loop of the pixel output: `n` remaining pixels starting at
column `j`. -/
def writeRowPix (cap : Nat) (row : List Nat) : Nat → Nat → OutFile → Option OutFile
  | _, 0, f => some f
  | j, n+1, f =>
    match writePix cap row j f with
    | none => none
    | some f2 => writeRowPix cap row (j+1) n f2

/-- The `p` loop writing the scanline padding: `write_byte_to_file(output,
0x0)` with the return value **ignored** (a failed write leaves the file
as-is and the loop continues). -/
def writePad (cap : Nat) : Nat → OutFile → OutFile
  | 0, f => f
  | n+1, f => writePad cap n ((writeChk cap f [0]).getD f)

/-- The `i` loop over scanlines: `n` remaining rows starting at buffer row
`i` (`img->data[i]`), each row's pixels followed by the unchecked padding
writes. -/
def writeData (cap w padN : Nat) (data : List (List Nat)) : Nat → Nat → OutFile → Option OutFile
  | _, 0, f => some f
  | i, n+1, f =>
    match writeRowPix cap (data.getD i []) 0 w f with
    | none => none
    | some f2 => writeData cap w padN data (i+1) n (writePad cap padN f2)

/-- `output_image_to_file`: header fields, pixel data with padding, then
`size = ftell(output)`, `fseek(output, 0x22, SEEK_SET)` (offset 34) and an
**unchecked** `write_le_int32_to_file(output, size - 54)`.  On this path
`pos ≥ 54`, so the `size_t` subtraction never wraps. -/
def output_image_to_file (w h : Nat) (data : List (List Nat)) (cap : Nat) : Option OutFile :=
  match writeSeq cap (headerFields w h) ⟨[], 0⟩ with
  | none => none
  | some f =>
    match writeData cap w (pad32 w) data 0 h f with
    | none => none
    | some f2 =>
      some ((writeChk cap ⟨f2.contents, 34⟩ (le32 (f2.pos - 54))).getD
              ⟨f2.contents, 34⟩)

/-- Result of `BMtoBMP_convert_image`.  The C function returns `0`/`-1`;
the error constructors record which failure site produced the `-1`
(spec names: `FilenameTooLong`, `TruncatedHeader`, `TruncatedPixelData`,
`PaletteLookupFailed`, `WriteFailure`).  An `Except.error` result means
the output file was never opened (`fopen` happens inside
`output_image_to_file` only) except for `writeFailure`. -/
inductive ConvErr
  | filenameTooLong
  | truncatedHeader
  | truncatedPixelData
  | paletteLookupFailed
  | writeFailure
deriving DecidableEq, Repr

/-- `BMtoBMP_convert_image`: filename length check
(`strlen(output_filename) + 5 > 256`), `create_image`, `process_image`,
`output_image_to_file`.  `nameLen` is the length of the output filename. -/
def BMtoBMP_convert_image (bm pal : List Nat) (nameLen cap : Nat) : Except ConvErr OutFile :=
  if nameLen + 5 > 256 then Except.error ConvErr.filenameTooLong
  else
    match create_image bm with
    | none => Except.error ConvErr.truncatedHeader
    | some (w, h) =>
      match process_image bm pal w h with
      | Except.error DecErr.truncatedPixelData => Except.error ConvErr.truncatedPixelData
      | Except.error DecErr.paletteLookupFailed => Except.error ConvErr.paletteLookupFailed
      | Except.ok data =>
        match output_image_to_file w h data cap with
        | none => Except.error ConvErr.writeFailure
        | some f => Except.ok f

/-- The bytes of the produced output file, if the conversion succeeded. -/
def outBytes : Except ConvErr OutFile → Option (List Nat)
  | Except.error _ => none
  | Except.ok f => some f.contents

/-- Decoder index placement as the specification words it: the index bytes
start immediately after the 8-byte dimension header, i.e. at offset 8.
Stated only for comparison with `process_image`, which seeks to offset 12
(`fseek(bm_file, 0x0C, SEEK_SET)`). -/
def readRowsSpecOffset (bm pal : List Nat) (w h : Nat) : Except DecErr (List (List Nat)) :=
  readRows bm pal w 8 h

/-- Closed form of one decoded pixel whose palette index is the BM byte at
position `p`: the palette triple at `index * 3` (R, G, B), stored
channel-swapped as B, G, R. -/
def pixAt (bm pal : List Nat) (p : Nat) : List Nat :=
  [pal.getD (bm.getD p 0 % 256 * 3 + 2) 0 % 256,
   pal.getD (bm.getD p 0 % 256 * 3 + 1) 0 % 256,
   pal.getD (bm.getD p 0 % 256 * 3) 0 % 256]

/-- Closed form of a decoded scanline: `n` pixels from BM position `p`. -/
def expRow (bm pal : List Nat) : Nat → Nat → List Nat
  | _, 0 => []
  | p, n+1 => pixAt bm pal p ++ expRow bm pal (p+1) n

/-- Closed form of the decoded pixel buffer: `m` buffer rows, the earliest
BM bytes (from position `p`) filling the **highest** buffer row. -/
def expData (bm pal : List Nat) (w : Nat) : Nat → Nat → List (List Nat)
  | _, 0 => []
  | p, m+1 => expData bm pal w (p+w) m ++ [expRow bm pal p w]

/-- Closed form of one serialized scanline's pixel bytes: `n` pixels of
`row` starting at column `j`. -/
def rowSer (row : List Nat) : Nat → Nat → List Nat
  | _, 0 => []
  | j, n+1 =>
    [row.getD (j * 3) 0 % 256, row.getD (j * 3 + 1) 0 % 256,
     row.getD (j * 3 + 2) 0 % 256] ++ rowSer row (j+1) n

/-- Closed form of the serialized pixel data: `n` scanlines starting at
buffer row `i`, each padded with `padN` zero bytes. -/
def dataSer (w padN : Nat) (data : List (List Nat)) : Nat → Nat → List Nat
  | _, 0 => []
  | i, n+1 =>
    rowSer (data.getD i []) 0 w ++ List.replicate padN 0
      ++ dataSer w padN data (i+1) n

/-- The bytes of a fully completed encode: header, padded scanlines, and
the patch of the raw-size field at offset 34. -/
def fullBytes (w h : Nat) (data : List (List Nat)) : List Nat :=
  overwrite (headerBytes w h ++ dataSer w (pad32 w) data 0 h) 34
    (le32 (h * (3 * w + pad32 w)))

/-- 1×1 BM stream: width 1, height 1, four skipped bytes, one index byte 0. -/
def bm1 : List Nat := [1,0,0,0, 1,0,0,0, 0,0,0,0, 0]

/-- Palette with the single triple (10, 20, 30). -/
def pal1 : List Nat := [10, 20, 30]

/-- 2×2 BM stream with indices `[0,1,2,3]` in row-major top-down order. -/
def bm3 : List Nat := [2,0,0,0, 2,0,0,0, 0,0,0,0, 0,1,2,3]

/-- Palette of four triples (10,20,30), (40,50,60), (70,80,90), (100,110,120). -/
def pal3 : List Nat := [10,20,30, 40,50,60, 70,80,90, 100,110,120]

/-- 1×1 BM stream whose byte at offset 8 is index 9 while the byte at
offset 12 is index 5: distinguishes the two candidate index placements. -/
def bm2 : List Nat := [1,0,0,0, 1,0,0,0, 9,9,9,9, 5]

/-- Palette mapping index 5 to (1,2,3) and index 9 to (7,8,9). -/
def pal2 : List Nat :=
  [0,0,0, 0,0,0, 0,0,0, 0,0,0, 0,0,0, 1,2,3, 0,0,0, 0,0,0, 0,0,0, 7,8,9]

/-- 1×0 BM stream: width 1, height 0, nothing else. -/
def bm7 : List Nat := [1,0,0,0, 0,0,0,0]

/-- 1×1 BM stream truncated right after the dimension header. -/
def bm8 : List Nat := [1,0,0,0, 1,0,0,0]

/-- A complete 256-entry palette (all black). -/
def pal8 : List Nat := List.replicate 768 0

/-- The 58 bytes the converter produces for `bm1`/`pal1` with ample
capacity: 54-byte header (file-size field 57, raw-size field patched to 4,
both density fields 0x0B13), one BGR pixel (30, 20, 10) and one padding
byte. -/
def c1full : List Nat :=
  [66, 77, 57, 0, 0, 0, 0, 0, 0, 0, 54, 0, 0, 0, 40, 0, 0, 0,
   1, 0, 0, 0, 1, 0, 0, 0, 1, 0, 24, 0, 0, 0, 0, 0, 4, 0, 0, 0,
   19, 11, 0, 0, 19, 11, 0, 0, 0, 0, 0, 0, 0, 0, 0, 0,
   30, 20, 10, 0]

/-- Invariant of the pixel-writing phase: the file position never returns
into the 54 header bytes, whose prefix stays equal to `H`. -/
def keep54 (H : List Nat) (f : OutFile) : Prop :=
  54 ≤ f.pos ∧ 54 ≤ f.contents.length ∧ f.contents.take 54 = H

/-! ### Decoder lemmas -/

theorem byteAt_lt {s : List Nat} {p : Nat} (h : p < s.length) :
    byteAt s p = some (s.getD p 0 % 256) := by
  rw [byteAt, List.getD_eq_getD_get?, List.get?_eq_get h]
  rfl

theorem byteAt_ge {s : List Nat} {p : Nat} (h : s.length ≤ p) :
    byteAt s p = none := by
  rw [byteAt, List.get?_eq_none.2 h]
  rfl

theorem decodePixel_ok {bm pal : List Nat} {p : Nat}
    (hp : p < bm.length) (hpal : 768 ≤ pal.length) :
    decodePixel bm pal p = Except.ok (pixAt bm pal p) := by
  have hidx : bm.getD p 0 % 256 < 256 := Nat.mod_lt _ (by omega)
  have h0 : bm.getD p 0 % 256 * 3 < pal.length := by omega
  have h1 : bm.getD p 0 % 256 * 3 + 1 < pal.length := by omega
  have h2 : bm.getD p 0 % 256 * 3 + 2 < pal.length := by omega
  simp only [decodePixel, byteAt_lt hp, byteAt_lt h0, byteAt_lt h1,
    byteAt_lt h2, pixAt]

theorem decodePixel_err {bm pal : List Nat} {p : Nat} (hp : bm.length ≤ p) :
    decodePixel bm pal p = Except.error DecErr.truncatedPixelData := by
  rw [decodePixel, byteAt_ge hp]

theorem readRow_ok {bm pal : List Nat} (hpal : 768 ≤ pal.length) :
    ∀ n p, p + n ≤ bm.length →
      readRow bm pal p n = Except.ok (expRow bm pal p n)
  | 0, p, _ => rfl
  | n+1, p, h => by
    rw [readRow, decodePixel_ok (by omega) hpal,
        readRow_ok hpal n (p+1) (by omega)]
    rfl

theorem readRow_err {bm pal : List Nat} (hpal : 768 ≤ pal.length) :
    ∀ n p, bm.length < p + (n + 1) →
      readRow bm pal p (n + 1) = Except.error DecErr.truncatedPixelData
  | 0, p, h => by
    rw [readRow, decodePixel_err (by omega)]
  | n+1, p, h => by
    rcases Nat.lt_or_ge p bm.length with hp | hp
    · rw [readRow, decodePixel_ok hp hpal,
          readRow_err hpal n (p+1) (by omega)]
    · rw [readRow, decodePixel_err hp]

theorem readRows_ok {bm pal : List Nat} {w : Nat} (hpal : 768 ≤ pal.length) :
    ∀ m p, p + m * w ≤ bm.length →
      readRows bm pal w p m = Except.ok (expData bm pal w p m)
  | 0, p, _ => rfl
  | m+1, p, h => by
    rw [readRows, readRow_ok hpal w p (by nlinarith [Nat.succ_mul m w]),
        readRows_ok hpal m (p+w) (by nlinarith [Nat.succ_mul m w])]
    rfl

theorem readRows_err {bm pal : List Nat} {w : Nat} (hpal : 768 ≤ pal.length)
    (hw : 1 ≤ w) :
    ∀ m p, bm.length < p + (m + 1) * w →
      readRows bm pal w p (m + 1) = Except.error DecErr.truncatedPixelData
  | 0, p, h => by
    obtain ⟨k, rfl⟩ : ∃ k, w = k + 1 := ⟨w - 1, by omega⟩
    rw [readRows, readRow_err hpal k p (by omega)]
  | m+1, p, h => by
    rcases Nat.lt_or_ge bm.length (p + w) with hp | hp
    · obtain ⟨k, rfl⟩ : ∃ k, w = k + 1 := ⟨w - 1, by omega⟩
      rw [readRows, readRow_err hpal k p (by omega)]
    · rw [readRows, readRow_ok hpal w p hp,
          readRows_err hpal hw m (p+w) (by nlinarith [Nat.succ_mul (m+1) w])]

theorem expRow_length (bm pal : List Nat) : ∀ n p, (expRow bm pal p n).length = 3 * n
  | 0, _ => rfl
  | n+1, p => by
    rw [expRow]
    simp [expRow_length bm pal n (p+1), pixAt]
    omega

theorem expData_length (bm pal : List Nat) (w : Nat) :
    ∀ m p, (expData bm pal w p m).length = m
  | 0, _ => rfl
  | m+1, p => by
    rw [expData]
    simp [expData_length bm pal w m (p+w)]

theorem expData_getD (bm pal : List Nat) (w : Nat) :
    ∀ m p i, i < m →
      (expData bm pal w p m).getD i [] = expRow bm pal (p + (m - 1 - i) * w) w
  | m+1, p, i, h => by
    rw [expData]
    rcases Nat.lt_or_ge i m with h2 | h2
    · rw [List.getD_append _ _ _ _ (by rw [expData_length]; exact h2),
          expData_getD bm pal w m (p+w) i h2,
          show m + 1 - 1 - i = (m - 1 - i) + 1 from by omega, Nat.succ_mul]
      generalize (m - 1 - i) * w = t
      congr 1
      omega
    · have h3 : i = m := by omega
      subst h3
      rw [List.getD_append_right _ _ _ _ (by simp [expData_length])]
      rw [expData_length]
      simp [show i + 1 - 1 - i = 0 from by omega]

theorem expRow_getD (bm pal : List Nat) :
    ∀ n p j c, j < n → c < 3 →
      (expRow bm pal p n).getD (3 * j + c) 0 = (pixAt bm pal (p + j)).getD c 0
  | n+1, p, 0, c, hj, hc => by
    rw [expRow, List.getD_append _ _ _ _ (by simp [pixAt]; omega)]
    simp
  | n+1, p, j+1, c, hj, hc => by
    rw [expRow,
        show 3 * (j + 1) + c = (pixAt bm pal p).length + (3 * j + c) from by
          simp [pixAt]; omega,
        List.getD_append_right _ _ _ _ (Nat.le_add_right _ _),
        Nat.add_sub_cancel_left,
        expRow_getD bm pal n (p+1) j c (by omega) hc]
    congr 2
    omega

theorem process_image_ok {bm pal : List Nat} {w h : Nat}
    (hh : h ≤ 2147483648) (hlen : 12 + h * w ≤ bm.length)
    (hpal : 768 ≤ pal.length) :
    process_image bm pal w h = Except.ok (expData bm pal w 12 h) := by
  rw [process_image, if_pos hh]
  exact readRows_ok hpal h 12 (by omega)

theorem readRows_w0 (bm pal : List Nat) :
    ∀ m p, readRows bm pal 0 p m = Except.ok (List.replicate m [])
  | 0, _ => rfl
  | m+1, p => by
    rw [readRows]
    show (match readRows bm pal 0 (p+0) m with
      | Except.error e => Except.error e
      | Except.ok rest => Except.ok (rest ++ [[]])) = _
    rw [readRows_w0 bm pal m (p+0)]
    rw [List.replicate_succ' m]

theorem process_image_w0 (bm pal : List Nat) (h : Nat) :
    process_image bm pal 0 h = Except.ok (List.replicate h []) := by
  rw [process_image]
  split
  · exact readRows_w0 bm pal h 12
  · simp

/-! ### Encoder lemmas -/

theorem overwrite_append (c bs : List Nat) : overwrite c c.length bs = c ++ bs := by
  rw [overwrite, List.take_length, List.drop_eq_nil_iff.2 (by omega)]
  simp

theorem writeChk_append {cap : Nat} {f : OutFile}
    (hf : f.pos = f.contents.length) (bs : List Nat) :
    writeChk cap f bs =
      if f.pos + bs.length ≤ cap then
        some ⟨f.contents ++ bs, f.pos + bs.length⟩
      else none := by
  rw [writeChk]
  split_ifs with h
  · rw [hf, overwrite_append]
  · rfl

theorem writeSeq_chr {cap : Nat} :
    ∀ (chunks : List (List Nat)) (f : OutFile),
      f.pos = f.contents.length → f.pos ≤ cap →
      writeSeq cap chunks f =
        if f.pos + chunks.flatten.length ≤ cap then
          some ⟨f.contents ++ chunks.flatten, f.pos + chunks.flatten.length⟩
        else none
  | [], f, hf, hcap => by
    simp [writeSeq, hcap]
  | bs :: rest, f, hf, hcap => by
    rw [writeSeq, writeChk_append hf]
    by_cases h1 : f.pos + bs.length ≤ cap
    · rw [if_pos h1]
      show writeSeq cap rest ⟨f.contents ++ bs, f.pos + bs.length⟩ = _
      rw [writeSeq_chr rest ⟨f.contents ++ bs, f.pos + bs.length⟩ (by simp [hf]) h1]
      simp only [List.flatten_cons, List.length_append, List.append_assoc,
        Nat.add_assoc]
    · rw [if_neg h1, if_neg (by simp only [List.flatten_cons, List.length_append]; omega)]

theorem headerBytes_length (w h : Nat) : (headerBytes w h).length = 54 := rfl

theorem writePix_chr {cap : Nat} {row : List Nat} {j : Nat} {f : OutFile}
    (hf : f.pos = f.contents.length) (hcap : f.pos ≤ cap) :
    writePix cap row j f =
      if f.pos + 3 ≤ cap then
        some ⟨f.contents ++
                [row.getD (j * 3) 0 % 256, row.getD (j * 3 + 1) 0 % 256,
                 row.getD (j * 3 + 2) 0 % 256],
              f.pos + 3⟩
      else none := by
  rw [writePix, writeSeq_chr _ f hf hcap]
  rfl

theorem writeRowPix_chr {cap : Nat} {row : List Nat} :
    ∀ (n j : Nat) (f : OutFile), f.pos = f.contents.length → f.pos ≤ cap →
      writeRowPix cap row j n f =
        if f.pos + 3 * n ≤ cap then
          some ⟨f.contents ++ rowSer row j n, f.pos + 3 * n⟩
        else none
  | 0, j, f, hf, hcap => by
    simp [writeRowPix, rowSer, hcap]
  | n+1, j, f, hf, hcap => by
    rw [writeRowPix]
    show (match writePix cap row j f with
      | none => none
      | some f2 => writeRowPix cap row (j+1) n f2) = _
    rw [writePix_chr hf hcap]
    by_cases h1 : f.pos + 3 ≤ cap
    · rw [if_pos h1]
      show writeRowPix cap row (j+1) n ⟨_, f.pos + 3⟩ = _
      rw [writeRowPix_chr n (j+1) _ (by simp [hf]) h1]
      have e3 : f.pos + 3 + 3 * n = f.pos + 3 * (n + 1) := by omega
      simp only [rowSer, e3, List.append_assoc]
    · rw [if_neg h1, if_neg (by omega)]

theorem writePad_chr {cap : Nat} :
    ∀ (n : Nat) (f : OutFile), f.pos = f.contents.length → f.pos + n ≤ cap →
      writePad cap n f = ⟨f.contents ++ List.replicate n 0, f.pos + n⟩
  | 0, f, hf, hcap => by
    simp [writePad]
  | n+1, f, hf, hcap => by
    rw [writePad, writeChk_append hf]
    simp only [List.length_singleton]
    rw [if_pos (by omega)]
    simp only [Option.getD_some]
    rw [writePad_chr n ⟨f.contents ++ [0], f.pos + 1⟩ (by simp [hf]) (by dsimp only; omega)]
    simp only [OutFile.mk.injEq, List.append_assoc, List.singleton_append,
      ← List.replicate_succ, true_and, and_true]
    omega

theorem rowSer_length (row : List Nat) : ∀ n j, (rowSer row j n).length = 3 * n
  | 0, _ => rfl
  | n+1, j => by
    rw [rowSer]
    simp [rowSer_length row n (j+1)]
    omega

theorem writeData_chr {cap w padN : Nat} {data : List (List Nat)} :
    ∀ (n i : Nat) (f : OutFile), f.pos = f.contents.length →
      f.pos + n * (3 * w + padN) ≤ cap →
      writeData cap w padN data i n f =
        some ⟨f.contents ++ dataSer w padN data i n, f.pos + n * (3 * w + padN)⟩
  | 0, i, f, hf, hcap => by
    simp [writeData, dataSer]
  | n+1, i, f, hf, hcap => by
    have hmul : (n + 1) * (3 * w + padN) = n * (3 * w + padN) + (3 * w + padN) :=
      Nat.succ_mul n _
    rw [writeData]
    show (match writeRowPix cap (data.getD i []) 0 w f with
      | none => none
      | some f2 => writeData cap w padN data (i+1) n (writePad cap padN f2)) = _
    rw [writeRowPix_chr w 0 f hf (by omega), if_pos (by omega)]
    show writeData cap w padN data (i+1) n
      (writePad cap padN ⟨f.contents ++ rowSer (data.getD i []) 0 w, f.pos + 3 * w⟩) = _
    rw [writePad_chr padN _ (by simp [hf, rowSer_length])
      (by dsimp only; omega)]
    rw [writeData_chr n (i+1) _ (by dsimp only; simp [hf, rowSer_length]; omega)
      (by dsimp only; omega)]
    simp only [dataSer, Option.some.injEq, OutFile.mk.injEq, List.append_assoc,
      true_and, and_true]
    omega

theorem writeChk_keep {cap : Nat} {H : List Nat} {f f2 : OutFile} {bs : List Nat}
    (hk : keep54 H f) (h : writeChk cap f bs = some f2) : keep54 H f2 := by
  obtain ⟨h1, h2, h3⟩ := hk
  rw [writeChk] at h
  split_ifs at h with hc
  · cases h
    refine ⟨by dsimp only; omega, ?_, ?_⟩
    · dsimp only
      rw [overwrite]
      simp only [List.length_append, List.length_take, List.length_drop]
      omega
    · dsimp only
      rw [overwrite,
        List.take_append_of_le_length
          (by simp only [List.length_append, List.length_take]; omega),
        List.take_append_of_le_length
          (by simp only [List.length_take]; omega),
        List.take_take, min_eq_left (by omega), h3]

theorem writeSeq_keep {cap : Nat} {H : List Nat} :
    ∀ (chunks : List (List Nat)) (f f2 : OutFile),
      keep54 H f → writeSeq cap chunks f = some f2 → keep54 H f2
  | [], f, f2, hk, h => by
    rw [writeSeq] at h
    cases h
    exact hk
  | bs :: rest, f, f2, hk, h => by
    rw [writeSeq] at h
    cases e : writeChk cap f bs with
    | none => rw [e] at h; simp at h
    | some f3 =>
      rw [e] at h
      exact writeSeq_keep rest f3 f2 (writeChk_keep hk e) h

theorem writePad_keep {cap : Nat} {H : List Nat} :
    ∀ (n : Nat) (f : OutFile), keep54 H f → keep54 H (writePad cap n f)
  | 0, f, hk => hk
  | n+1, f, hk => by
    rw [writePad]
    cases e : writeChk cap f [0] with
    | none =>
      rw [Option.getD_none]
      exact writePad_keep n f hk
    | some f3 =>
      rw [Option.getD_some]
      exact writePad_keep n f3 (writeChk_keep hk e)

theorem writeRowPix_keep {cap : Nat} {H : List Nat} {row : List Nat} :
    ∀ (n j : Nat) (f f2 : OutFile), keep54 H f →
      writeRowPix cap row j n f = some f2 → keep54 H f2
  | 0, j, f, f2, hk, h => by
    rw [writeRowPix] at h
    cases h
    exact hk
  | n+1, j, f, f2, hk, h => by
    rw [writeRowPix] at h
    cases e : writePix cap row j f with
    | none => rw [e] at h; simp at h
    | some f3 =>
      rw [e] at h
      exact writeRowPix_keep n (j+1) f3 f2 (writeSeq_keep _ f f3 hk e) h

theorem writeData_keep {cap w padN : Nat} {H : List Nat} {data : List (List Nat)} :
    ∀ (n i : Nat) (f f2 : OutFile), keep54 H f →
      writeData cap w padN data i n f = some f2 → keep54 H f2
  | 0, i, f, f2, hk, h => by
    rw [writeData] at h
    cases h
    exact hk
  | n+1, i, f, f2, hk, h => by
    rw [writeData] at h
    cases e : writeRowPix cap (data.getD i []) 0 w f with
    | none => rw [e] at h; simp at h
    | some f3 =>
      rw [e] at h
      exact writeData_keep n (i+1) _ f2
        (writePad_keep padN f3 (writeRowPix_keep w 0 f f3 hk e)) h

theorem take_slice {X S : List Nat} {m : Nat} (hX : X.take m = S) {a k : Nat}
    (hak : a + k ≤ m) : (X.drop a).take k = (S.drop a).take k := by
  rw [← hX, List.drop_take, List.take_take, min_eq_left (by omega)]

theorem overwrite34_drop {c bs : List Nat} (hbs : bs.length = 4)
    {a : Nat} (ha : 38 ≤ a) (hc : 38 ≤ c.length) :
    (overwrite c 34 bs).drop a = c.drop a := by
  have h34 : (c.take 34).length = 34 := by rw [List.length_take]; omega
  rw [overwrite, hbs, List.drop_append_eq_append_drop,
    List.drop_append_eq_append_drop]
  simp only [List.length_append, h34, hbs, List.drop_drop]
  rw [List.drop_eq_nil_iff.2 (by rw [h34]; omega),
    List.drop_eq_nil_iff.2 (by rw [hbs]; omega)]
  simp only [List.nil_append]
  congr 1
  omega

theorem le32_length (x : Nat) : (le32 x).length = 4 := rfl

theorem output_full {w h : Nat} {data : List (List Nat)} {cap : Nat}
    (hcap : 54 + h * (3 * w + pad32 w) ≤ cap) :
    output_image_to_file w h data cap = some ⟨fullBytes w h data, 38⟩ := by
  have h54 : (headerFields w h).flatten.length = 54 := headerBytes_length w h
  rw [output_image_to_file,
    writeSeq_chr (headerFields w h) ⟨[], 0⟩ rfl (Nat.zero_le _), h54]
  rw [if_pos (by dsimp only; omega)]
  simp only [List.nil_append, Nat.zero_add]
  rw [writeData_chr h 0 ⟨(headerFields w h).flatten, 54⟩ (by dsimp only; omega)
    (by dsimp only; omega)]
  dsimp only
  rw [Nat.add_sub_cancel_left, writeChk, le32_length]
  rw [if_pos (by dsimp only; omega)]
  simp only [Option.getD_some, Option.some.injEq, OutFile.mk.injEq]
  refine ⟨?_, trivial⟩
  rw [fullBytes, headerBytes]

theorem dataSer_length {w padN : Nat} {data : List (List Nat)} :
    ∀ (n i : Nat), (dataSer w padN data i n).length = n * (3 * w + padN)
  | 0, _ => by simp [dataSer]
  | n+1, i => by
    rw [dataSer]
    simp only [List.length_append, rowSer_length, List.length_replicate,
      dataSer_length n (i+1), Nat.succ_mul]
    omega

theorem dataSer_dropChunk {w padN : Nat} {data : List (List Nat)} (i m : Nat) :
    (dataSer w padN data i (m+1)).drop (3 * w + padN) =
      dataSer w padN data (i+1) m := by
  rw [dataSer, List.drop_left' (by simp [rowSer_length])]

theorem dataSer_chunk {w padN : Nat} {data : List (List Nat)} :
    ∀ (n i k : Nat), k < n →
      ((dataSer w padN data i n).drop (k * (3 * w + padN) + 3 * w)).take padN =
        List.replicate padN 0
  | n+1, i, 0, _ => by
    simp only [Nat.zero_mul, Nat.zero_add]
    rw [dataSer, List.append_assoc, List.drop_left' (rowSer_length _ w 0),
      List.take_left' (by simp)]
  | n+1, i, k+1, h => by
    have e : (k+1) * (3 * w + padN) + 3 * w =
        (3 * w + padN) + (k * (3 * w + padN) + 3 * w) := by
      rw [Nat.succ_mul]
      ring
    rw [e, ← List.drop_drop, dataSer_dropChunk i n]
    exact dataSer_chunk n (i+1) k (by omega)

theorem overwrite_length {c bs : List Nat} {p : Nat} (h : p + bs.length ≤ c.length) :
    (overwrite c p bs).length = c.length := by
  rw [overwrite]
  simp only [List.length_append, List.length_take, List.length_drop]
  omega

theorem fullBytes_length (w h : Nat) (data : List (List Nat)) :
    (fullBytes w h data).length = 54 + h * (3 * w + pad32 w) := by
  rw [fullBytes,
    overwrite_length (by rw [le32_length, List.length_append, headerBytes_length]; omega),
    List.length_append, headerBytes_length, dataSer_length]

theorem fullBytes_drop54 (w h : Nat) (data : List (List Nat)) :
    (fullBytes w h data).drop 54 = dataSer w (pad32 w) data 0 h := by
  rw [fullBytes,
    overwrite34_drop (le32_length _) (by omega)
      (by rw [List.length_append, headerBytes_length]; omega),
    List.drop_left' (headerBytes_length w h)]

theorem writeData_trivial {cap : Nat} {data : List (List Nat)} :
    ∀ (n i : Nat) (f : OutFile), writeData cap 0 0 data i n f = some f
  | 0, _, _ => rfl
  | n+1, i, f => by
    rw [writeData]
    show writeData cap 0 0 data (i+1) n f = some f
    exact writeData_trivial n (i+1) f

theorem overwrite_mid (X bs Y : List Nat) :
    overwrite (X ++ bs ++ Y) X.length bs = X ++ bs ++ Y := by
  rw [overwrite, List.take_append_of_le_length (by simp), List.take_left,
    show X.length + bs.length = (X ++ bs).length from (List.length_append _ _).symm,
    List.drop_left]

theorem headerBytes_split (w h : Nat) :
    headerBytes w h =
      ([66, 77] ++ le32 (54 + w * h * 3 % 4294967296) ++ le32 0 ++ le32 54 ++
        le32 40 ++ le32 w ++ le32 h ++ le16 1 ++ le16 24 ++ le32 0) ++ le32 0 ++
      (le32 ppm_resolution ++ le32 ppm_resolution ++ le32 0 ++ le32 0) := by
  simp [headerBytes, headerFields, List.append_assoc]

theorem patch34_id (w h : Nat) :
    overwrite (headerBytes w h) 34 (le32 0) = headerBytes w h := by
  rw [headerBytes_split,
    show (34 : Nat) =
      ([66, 77] ++ le32 (54 + w * h * 3 % 4294967296) ++ le32 0 ++ le32 54 ++
        le32 40 ++ le32 w ++ le32 h ++ le16 1 ++ le16 24 ++ le32 0).length
      from by simp [le32, le16]]
  exact overwrite_mid _ _ _

theorem headerBytes_drop38 (w h : Nat) :
    (headerBytes w h).drop 38 =
      le32 ppm_resolution ++ (le32 ppm_resolution ++ (le32 0 ++ le32 0)) := by
  rw [headerBytes_split]
  rw [show (38 : Nat) =
      (([66, 77] ++ le32 (54 + w * h * 3 % 4294967296) ++ le32 0 ++ le32 54 ++
        le32 40 ++ le32 w ++ le32 h ++ le16 1 ++ le16 24 ++ le32 0) ++ le32 0).length
      from by simp [le32, le16]]
  rw [List.drop_left]
  simp [List.append_assoc]

theorem headerBytes_take2 (w h : Nat) : (headerBytes w h).take 2 = [66, 77] := by
  rw [headerBytes, headerFields, List.flatten_cons]
  exact List.take_left' rfl

theorem output_trivial {w h : Nat} {data : List (List Nat)} {cap : Nat}
    (hcap : 54 ≤ cap)
    (hd : ∀ f : OutFile, writeData cap w (pad32 w) data 0 h f = some f) :
    output_image_to_file w h data cap = some ⟨headerBytes w h, 38⟩ := by
  have h54 : (headerFields w h).flatten.length = 54 := headerBytes_length w h
  rw [output_image_to_file,
    writeSeq_chr (headerFields w h) ⟨[], 0⟩ rfl (Nat.zero_le _), h54,
    if_pos (by dsimp only; omega)]
  simp only [List.nil_append, Nat.zero_add]
  rw [hd ⟨(headerFields w h).flatten, 54⟩]
  dsimp only
  rw [Nat.sub_self, writeChk, le32_length, if_pos (by dsimp only; omega)]
  simp only [Option.getD_some, Option.some.injEq, OutFile.mk.injEq]
  refine ⟨?_, trivial⟩
  exact patch34_id w h

theorem output_suffix38 {w h : Nat} {data : List (List Nat)} {cap : Nat} {f : OutFile}
    (hs : output_image_to_file w h data cap = some f) :
    (f.contents.drop 38).take 16 = (headerBytes w h).drop 38 := by
  have h54 : (headerFields w h).flatten.length = 54 := headerBytes_length w h
  rw [output_image_to_file] at hs
  cases e1 : writeSeq cap (headerFields w h) ⟨[], 0⟩ with
  | none => rw [e1] at hs; simp at hs
  | some f1 =>
    rw [e1] at hs
    rw [writeSeq_chr (headerFields w h) ⟨[], 0⟩ rfl (Nat.zero_le _), h54] at e1
    split_ifs at e1 with hc
    · cases e1
      simp only [List.nil_append, Nat.zero_add] at hs
      cases e2 : writeData cap w (pad32 w) data 0 h ⟨(headerFields w h).flatten, 54⟩ with
      | none => rw [e2] at hs; simp at hs
      | some f2 =>
        rw [e2] at hs
        have hk2 : keep54 (headerBytes w h) f2 :=
          writeData_keep h 0 _ f2
            ⟨by dsimp only; omega, by dsimp only; omega,
              by dsimp only; rw [← h54, List.take_length]; rfl⟩ e2
        obtain ⟨hk1, hk2l, hk2t⟩ := hk2
        simp only [Option.some.injEq] at hs
        have hsuf2 : (f2.contents.drop 38).take 16 = (headerBytes w h).drop 38 := by
          rw [take_slice hk2t (by omega), List.take_of_length_le]
          rw [List.length_drop, headerBytes_length]
        cases e3 : writeChk cap ⟨f2.contents, 34⟩ (le32 (f2.pos - 54)) with
        | none =>
          rw [e3, Option.getD_none] at hs
          rw [← hs]
          exact hsuf2
        | some f3 =>
          rw [e3, Option.getD_some] at hs
          rw [writeChk] at e3
          split_ifs at e3 with hc3
          cases e3
          rw [← hs]
          dsimp only
          rw [overwrite34_drop (le32_length _) (by omega) (by omega)]
          exact hsuf2

/-! ### Header-read lemmas -/

theorem byteAt_some {s : List Nat} {q b : Nat} (h : byteAt s q = some b) :
    s.getD q 0 % 256 = b := by
  rw [byteAt] at h
  cases e : s.get? q with
  | none => rw [e] at h; simp at h
  | some a =>
    rw [e] at h
    simp at h
    rw [List.getD_eq_getD_get?, e]
    simpa using h

theorem byteAt_lt_length {s : List Nat} {q b : Nat} (h : byteAt s q = some b) :
    q < s.length := by
  by_contra hq
  push_neg at hq
  rw [byteAt_ge hq] at h
  simp at h

theorem readU32_bound {s : List Nat} {p v : Nat} (h : readU32 s p = some v) :
    p + 4 ≤ s.length := by
  rw [readU32] at h
  cases e0 : byteAt s p with
  | none => rw [e0] at h; simp at h
  | some b0 =>
    cases e1 : byteAt s (p+1) with
    | none => rw [e0, e1] at h; simp at h
    | some b1 =>
      cases e2 : byteAt s (p+2) with
      | none => rw [e0, e1, e2] at h; simp at h
      | some b2 =>
        cases e3 : byteAt s (p+3) with
        | none => rw [e0, e1, e2, e3] at h; simp at h
        | some b3 =>
          have := byteAt_lt_length e3
          omega

theorem readU32_val {s : List Nat} {p v : Nat} (h : readU32 s p = some v) :
    v = s.getD p 0 % 256 + 256 * (s.getD (p+1) 0 % 256) +
        65536 * (s.getD (p+2) 0 % 256) + 16777216 * (s.getD (p+3) 0 % 256) := by
  rw [readU32] at h
  cases e0 : byteAt s p with
  | none => rw [e0] at h; simp at h
  | some b0 =>
    cases e1 : byteAt s (p+1) with
    | none => rw [e0, e1] at h; simp at h
    | some b1 =>
      cases e2 : byteAt s (p+2) with
      | none => rw [e0, e1, e2] at h; simp at h
      | some b2 =>
        cases e3 : byteAt s (p+3) with
        | none => rw [e0, e1, e2, e3] at h; simp at h
        | some b3 =>
          rw [e0, e1, e2, e3] at h
          simp only [Option.some.injEq] at h
          rw [byteAt_some e0, byteAt_some e1, byteAt_some e2, byteAt_some e3]
          omega

theorem create_image_eq {bm : List Nat} {w h : Nat}
    (hC : create_image bm = some (w, h)) :
    readU32 bm 0 = some w ∧ readU32 bm 4 = some h := by
  rw [create_image] at hC
  cases e0 : readU32 bm 0 with
  | none => rw [e0] at hC; simp at hC
  | some w0 =>
    rw [e0] at hC
    cases e4 : readU32 bm 4 with
    | none => rw [e4] at hC; simp at hC
    | some h0 =>
      rw [e4] at hC
      simp only [Option.some.injEq, Prod.mk.injEq] at hC
      obtain ⟨hw, hh⟩ := hC
      subst hw
      subst hh
      exact ⟨rfl, rfl⟩

theorem expData_pixel {bm pal : List Nat} {w h i j c : Nat}
    (hi : i < h) (hj : j < w) (hc : c < 3) :
    ((expData bm pal w 12 h).getD (h - 1 - i) []).getD (3 * j + c) 0 =
      (pixAt bm pal (12 + i * w + j)).getD c 0 := by
  rw [expData_getD bm pal w h 12 (h - 1 - i) (by omega),
    show h - 1 - (h - 1 - i) = i from by omega]
  exact expRow_getD bm pal w (12 + i * w) j c hj hc

/-! ### Claim theorems -/

/-- C1: the claim says the 4-byte little-endian file-size field at offset 2
of the output BMP equals 54 plus the padded pixel-data size and therefore
the total file length.  The code violates it: the field is written as
`54 + width*height*3` (unpadded) and never corrected — the later
"update file size" patch seeks to offset 0x22 = 34 (the raw-data-size
field) instead of offset 2.  Evaluated at the 1×1 input `bm1`/`pal1`: the
produced file has 58 bytes (54 header + 3 pixel + 1 pad), the field at
offset 2 holds 57, and the raw-size field at offset 34 holds the padded
size 4. -/
theorem c1_filesize_field_bug :
    (outBytes (BMtoBMP_convert_image bm1 pal1 10 100)).map List.length = some 58 ∧
    (outBytes (BMtoBMP_convert_image bm1 pal1 10 100)).map
      (fun b => (b.drop 2).take 4) = some (le32 57) ∧
    (outBytes (BMtoBMP_convert_image bm1 pal1 10 100)).map
      (fun b => (b.drop 34).take 4) = some (le32 4) ∧
    le32 57 ≠ le32 58 := by
  decide

/-- C2 counterexample: the claim says the decoder reads the index bytes
starting immediately at byte offset 8 of the BM stream.  On the 1×1 stream
`bm2` (whose byte at offset 8 is palette index 9 and whose byte at offset
12 is palette index 5) the decoder `process_image` produces the pixel of
index 5 — it seeks to offset 12 — while reading from offset 8 (the
spec-worded `readRowsSpecOffset`) would produce the pixel of index 9. -/
theorem c2_counterexample :
    process_image bm2 pal2 1 1 = Except.ok [[3, 2, 1]] ∧
    readRowsSpecOffset bm2 pal2 1 1 = Except.ok [[9, 8, 7]] ∧
    process_image bm2 pal2 1 1 ≠ readRowsSpecOffset bm2 pal2 1 1 := by
  decide

/-- C2 (amended): the decoder reads width and height as little-endian
unsigned 32-bit integers from the first 8 bytes of the BM stream, and then
reads the `width × height` palette-index bytes starting at byte offset 12
(it seeks 4 bytes past the 8-byte dimension header), consuming them in
top-down, left-to-right row-major order with no bytes skipped within the
index data: the pixel of source row `i`, column `j` is produced from the
BM byte at offset `12 + (i*w + j)`. -/
theorem c2_index_stream_origin (bm pal : List Nat) (w h i j : Nat)
    (hC : create_image bm = some (w, h)) (hh : h ≤ 2147483648)
    (_hw3 : 3 * w < 4294967296) (hlen : 12 + h * w ≤ bm.length)
    (hpal : 768 ≤ pal.length) (hi : i < h) (hj : j < w) :
    w = bm.getD 0 0 % 256 + 256 * (bm.getD 1 0 % 256) +
        65536 * (bm.getD 2 0 % 256) + 16777216 * (bm.getD 3 0 % 256) ∧
    h = bm.getD 4 0 % 256 + 256 * (bm.getD 5 0 % 256) +
        65536 * (bm.getD 6 0 % 256) + 16777216 * (bm.getD 7 0 % 256) ∧
    process_image bm pal w h = Except.ok (expData bm pal w 12 h) ∧
    ((expData bm pal w 12 h).getD (h - 1 - i) []).getD (3 * j) 0 =
      pal.getD (bm.getD (12 + (i * w + j)) 0 % 256 * 3 + 2) 0 % 256 := by
  obtain ⟨h0, h4⟩ := create_image_eq hC
  refine ⟨readU32_val h0, by simpa using readU32_val h4,
    process_image_ok hh hlen hpal, ?_⟩
  have hp := @expData_pixel bm pal w h i j 0 hi hj (by omega)
  simpa [pixAt, Nat.add_assoc] using hp

/-- C3: converting the 2×2 BM image `bm3` (indices 0,1,2,3 in row-major
top-down order) with the palette `pal3` of triples (10,20,30), (40,50,60),
(70,80,90), (100,110,120) produces a 70-byte BMP whose pixel area (bytes
54.. of the file) starts with output row 0 — the bottom source row,
indices 2 and 3 — as BGR triples (90,80,70), (120,110,100) plus two
padding zeros, followed by source row 0 channel-reversed: (30,20,10),
(60,50,40) plus padding. -/
theorem c3_concrete_2x2 :
    (outBytes (BMtoBMP_convert_image bm3 pal3 10 200)).map (List.drop 54) =
      some [90, 80, 70, 120, 110, 100, 0, 0, 30, 20, 10, 60, 50, 40, 0, 0] ∧
    (outBytes (BMtoBMP_convert_image bm3 pal3 10 200)).map List.length =
      some 70 := by
  decide

/-- C4: for every source row `i` (top-down) and column `j`, the decoder
stores the palette triple of that pixel's index byte, channel-swapped from
(R,G,B) to (B,G,R), into the pixel buffer at output row `height - 1 - i`,
column `j` (bytes `3j`, `3j+1`, `3j+2` of that row), so buffer row 0 is
the bottom source row. -/
theorem c4_bottom_up_bgr (bm pal : List Nat) (w h i j : Nat)
    (hh : h ≤ 2147483648) (_hw3 : 3 * w < 4294967296)
    (hlen : 12 + h * w ≤ bm.length) (hpal : 768 ≤ pal.length)
    (hi : i < h) (hj : j < w) :
    process_image bm pal w h = Except.ok (expData bm pal w 12 h) ∧
    ((expData bm pal w 12 h).getD (h - 1 - i) []).getD (3 * j) 0 =
      pal.getD (bm.getD (12 + i * w + j) 0 % 256 * 3 + 2) 0 % 256 ∧
    ((expData bm pal w 12 h).getD (h - 1 - i) []).getD (3 * j + 1) 0 =
      pal.getD (bm.getD (12 + i * w + j) 0 % 256 * 3 + 1) 0 % 256 ∧
    ((expData bm pal w 12 h).getD (h - 1 - i) []).getD (3 * j + 2) 0 =
      pal.getD (bm.getD (12 + i * w + j) 0 % 256 * 3) 0 % 256 := by
  refine ⟨process_image_ok hh hlen hpal, ?_, ?_, ?_⟩
  · have hp := @expData_pixel bm pal w h i j 0 hi hj (by omega)
    simpa [pixAt] using hp
  · have hp := @expData_pixel bm pal w h i j 1 hi hj (by omega)
    simpa [pixAt] using hp
  · have hp := @expData_pixel bm pal w h i j 2 hi hj (by omega)
    simpa [pixAt] using hp

/-- C5 counterexample: the claim says both pixels-per-meter fields (file
offsets 38 and 42) equal round(96 × 39.37) = 3780.  At the 1×1 input the
encoder writes `le32 ppm_resolution` = [19,11,0,0] (the source constant
`0x0B13` = 2835) into both fields, and that differs from `le32 3780`. -/
theorem c5_counterexample :
    (outBytes (BMtoBMP_convert_image bm1 pal1 10 100)).map
      (fun b => (b.drop 38).take 4) = some (le32 ppm_resolution) ∧
    (outBytes (BMtoBMP_convert_image bm1 pal1 10 100)).map
      (fun b => (b.drop 42).take 4) = some (le32 ppm_resolution) ∧
    le32 ppm_resolution = [19, 11, 0, 0] ∧
    ppm_resolution = 2835 ∧
    le32 ppm_resolution ≠ le32 3780 := by
  decide

/-- C5 (amended): for every successfully encoded image, the 4-byte
little-endian horizontal and vertical pixels-per-meter fields of the DIB
header (file offsets 38 and 42) both hold `ppm_resolution` = 0x0B13 =
2835 (≈ 72 DPI), not round(96 × 39.37) = 3780. -/
theorem c5_ppm_fields (w h : Nat) (data : List (List Nat)) (cap : Nat)
    (f : OutFile) (hs : output_image_to_file w h data cap = some f) :
    (f.contents.drop 38).take 4 = le32 ppm_resolution ∧
    (f.contents.drop 42).take 4 = le32 ppm_resolution ∧
    ppm_resolution = 2835 := by
  have hsuf := output_suffix38 hs
  refine ⟨?_, ?_, rfl⟩
  · have h1 : (f.contents.drop 38).take 4 =
        ((f.contents.drop 38).take 16).take 4 := by
      rw [List.take_take]
      norm_num
    rw [h1, hsuf, headerBytes_drop38, List.take_left' (le32_length _)]
  · have e42 : f.contents.drop 42 = (f.contents.drop 38).drop 4 := by
      rw [List.drop_drop]
    have h2 : ((f.contents.drop 38).drop 4).take 4 =
        (((f.contents.drop 38).take 16).drop 4).take 4 := by
      rw [List.drop_take, List.take_take]
      norm_num
    rw [e42, h2, hsuf, headerBytes_drop38, List.drop_left' (le32_length _),
      List.take_left' (le32_length _)]

/-- C6: the claim says the encoder reports failure whenever any underlying
write does not complete — in particular any scanline-padding byte write.
The code violates it: the padding-byte writes (and the final size patch)
ignore the return value of `write_byte_to_file`.  On the 1×1 input against
a medium with room for only 57 bytes, the final padding-byte write fails
yet the conversion returns success with a 57-byte file (the complete file
is 58 bytes, as the cap-58 run shows); by contrast a failing *pixel* byte
write (cap 56) is detected and reported. -/
theorem c6_padding_write_ignored :
    (outBytes (BMtoBMP_convert_image bm1 pal1 10 57)).map List.length = some 57 ∧
    (outBytes (BMtoBMP_convert_image bm1 pal1 10 58)).map List.length = some 58 ∧
    BMtoBMP_convert_image bm1 pal1 10 56 = Except.error ConvErr.writeFailure := by
  decide

/-- C7: for every input whose 8-byte header is readable and declares
`width = 0` or `height = 0` (with an output filename of admissible length
and a medium with room for the 54 header bytes), the conversion succeeds
and produces exactly the well-formed 54-byte header — empty pixel data,
"BM" signature — rather than crashing or failing. -/
theorem c7_zero_dims (bm pal : List Nat) (w h nameLen cap : Nat)
    (h0 : readU32 bm 0 = some w) (h4 : readU32 bm 4 = some h)
    (hwh : w = 0 ∨ h = 0) (hname : nameLen + 5 ≤ 256) (hcap : 54 ≤ cap) :
    BMtoBMP_convert_image bm pal nameLen cap = Except.ok ⟨headerBytes w h, 38⟩ ∧
    (headerBytes w h).length = 54 ∧
    (headerBytes w h).take 2 = [66, 77] := by
  refine ⟨?_, headerBytes_length w h, headerBytes_take2 w h⟩
  rw [BMtoBMP_convert_image, if_neg (by omega)]
  simp only [create_image, h0, h4]
  rcases hwh with hw | hh0
  · subst hw
    rw [process_image_w0]
    show (match output_image_to_file 0 h (List.replicate h []) cap with
      | none => Except.error ConvErr.writeFailure
      | some f => Except.ok f) = _
    rw [output_trivial hcap (fun f => writeData_trivial h 0 f)]
  · subst hh0
    rw [process_image, if_pos (by omega)]
    show (match output_image_to_file w 0 [] cap with
      | none => Except.error ConvErr.writeFailure
      | some f => Except.ok f) = _
    rw [@output_trivial w 0 [] cap hcap (fun f => rfl)]

/-- C8: for every BM stream whose 8-byte header is readable but which
holds fewer than `width × height` index bytes after the header, the
conversion fails with the truncated-pixel-data error and no output file
is created: the error return happens in `process_image`, before
`output_image_to_file` — the only place the output file is opened — is
reached, for any capacity.  The palette is assumed complete (≥ 768
bytes), so the failure cannot be a palette miss. -/
theorem c8_truncated_pixel_data (bm pal : List Nat) (w h nameLen cap : Nat)
    (h0 : readU32 bm 0 = some w) (h4 : readU32 bm 4 = some h)
    (hh : h ≤ 2147483648) (_hw3 : 3 * w < 4294967296)
    (htr : bm.length < 8 + w * h) (hpal : 768 ≤ pal.length)
    (hname : nameLen + 5 ≤ 256) :
    BMtoBMP_convert_image bm pal nameLen cap =
      Except.error ConvErr.truncatedPixelData := by
  have hlen8 : 8 ≤ bm.length := by
    have := readU32_bound h4
    omega
  have hw1 : 1 ≤ w := by
    rcases Nat.eq_zero_or_pos w with rfl | hw1
    · rw [Nat.zero_mul] at htr
      omega
    · exact hw1
  rw [BMtoBMP_convert_image, if_neg (by omega)]
  simp only [create_image, h0, h4]
  rw [process_image, if_pos hh]
  have hh1 : 1 ≤ h := by
    rcases Nat.eq_zero_or_pos h with rfl | hh1
    · rw [Nat.mul_zero] at htr
      omega
    · exact hh1
  obtain ⟨m, rfl⟩ : ∃ m, h = m + 1 := ⟨h - 1, by omega⟩
  have hmul : w * (m + 1) = (m + 1) * w := Nat.mul_comm _ _
  rw [readRows_err hpal hw1 m 12 (by omega)]

/-- C9: for every width, the encoded scanline stride is
`width*3 + pad32 width` bytes where `pad32 width` is
`(4 - (width*3) mod 4) mod 4`, the stride is divisible by 4, and — with
capacity for the whole file — the encode succeeds, producing
`54 + height*stride` bytes in which the `pad32 width` bytes following
each scanline's `3*width` pixel bytes are all zero. -/
theorem c9_scanline_padding (w h : Nat) (data : List (List Nat)) (cap k : Nat)
    (hcap : 54 + h * (3 * w + pad32 w) ≤ cap) (hk : k < h) :
    output_image_to_file w h data cap = some ⟨fullBytes w h data, 38⟩ ∧
    pad32 w = (4 - (w * 3) % 4) % 4 ∧
    (w * 3 + pad32 w) % 4 = 0 ∧
    (fullBytes w h data).length = 54 + h * (3 * w + pad32 w) ∧
    ((fullBytes w h data).drop
        (54 + (k * (3 * w + pad32 w) + 3 * w))).take (pad32 w) =
      List.replicate (pad32 w) 0 := by
  refine ⟨output_full hcap, rfl, ?_, fullBytes_length w h data, ?_⟩
  · rw [pad32]
    omega
  · rw [← List.drop_drop, fullBytes_drop54]
    exact dataSer_chunk h 0 k hk

/-- C10: the conversion is deterministic — two runs on equal BM stream
bytes, equal PAL stream bytes, the same output filename (length) and the
same medium capacity return equal results and produce identical output
bytes.  The model takes no other inputs, mirroring the source, which
reads no clock, randomness or environment (`time.h` is included but never
used). -/
theorem c10_deterministic (bmA bmB palA palB : List Nat) (nA nB cA cB : Nat)
    (hbm : bmA = bmB) (hpal : palA = palB) (hn : nA = nB) (hc : cA = cB) :
    BMtoBMP_convert_image bmA palA nA cA =
      BMtoBMP_convert_image bmB palB nB cB := by
  subst hbm
  subst hpal
  subst hn
  subst hc
  rfl

/-! ### Witnesses -/

/-- Witness for `c2_index_stream_origin` at the concrete 2×2 stream `bm3`
with the complete palette `pal8`, source pixel (0, 1). -/
theorem c2_index_stream_origin_witness :
    2 = bm3.getD 0 0 % 256 + 256 * (bm3.getD 1 0 % 256) +
        65536 * (bm3.getD 2 0 % 256) + 16777216 * (bm3.getD 3 0 % 256) ∧
    2 = bm3.getD 4 0 % 256 + 256 * (bm3.getD 5 0 % 256) +
        65536 * (bm3.getD 6 0 % 256) + 16777216 * (bm3.getD 7 0 % 256) ∧
    process_image bm3 pal8 2 2 = Except.ok (expData bm3 pal8 2 12 2) ∧
    ((expData bm3 pal8 2 12 2).getD (2 - 1 - 0) []).getD (3 * 1) 0 =
      pal8.getD (bm3.getD (12 + (0 * 2 + 1)) 0 % 256 * 3 + 2) 0 % 256 :=
  c2_index_stream_origin bm3 pal8 2 2 0 1 (by decide) (by omega) (by omega)
    (by decide) (by simp [pal8]) (by omega) (by omega)

/-- Witness for `c4_bottom_up_bgr` at `bm3`/`pal8`, source pixel (1, 0). -/
theorem c4_bottom_up_bgr_witness :
    process_image bm3 pal8 2 2 = Except.ok (expData bm3 pal8 2 12 2) ∧
    ((expData bm3 pal8 2 12 2).getD (2 - 1 - 1) []).getD (3 * 0) 0 =
      pal8.getD (bm3.getD (12 + 1 * 2 + 0) 0 % 256 * 3 + 2) 0 % 256 ∧
    ((expData bm3 pal8 2 12 2).getD (2 - 1 - 1) []).getD (3 * 0 + 1) 0 =
      pal8.getD (bm3.getD (12 + 1 * 2 + 0) 0 % 256 * 3 + 1) 0 % 256 ∧
    ((expData bm3 pal8 2 12 2).getD (2 - 1 - 1) []).getD (3 * 0 + 2) 0 =
      pal8.getD (bm3.getD (12 + 1 * 2 + 0) 0 % 256 * 3) 0 % 256 :=
  c4_bottom_up_bgr bm3 pal8 2 2 1 0 (by omega) (by omega) (by decide)
    (by simp [pal8]) (by omega) (by omega)

/-- Witness for `c5_ppm_fields` at the concrete 1×1 encode (`c1full`). -/
theorem c5_ppm_fields_witness :
    (c1full.drop 38).take 4 = le32 ppm_resolution ∧
    (c1full.drop 42).take 4 = le32 ppm_resolution ∧
    ppm_resolution = 2835 :=
  c5_ppm_fields 1 1 [[30, 20, 10]] 100 ⟨c1full, 38⟩ (by decide)

/-- Witness for `c7_zero_dims` at `bm7` (width 1, height 0). -/
theorem c7_zero_dims_witness :
    BMtoBMP_convert_image bm7 [] 10 54 = Except.ok ⟨headerBytes 1 0, 38⟩ ∧
    (headerBytes 1 0).length = 54 ∧
    (headerBytes 1 0).take 2 = [66, 77] :=
  c7_zero_dims bm7 [] 1 0 10 54 (by decide) (by decide) (Or.inr rfl)
    (by omega) (by omega)

/-- Witness for `c8_truncated_pixel_data` at the truncated stream `bm8`. -/
theorem c8_truncated_pixel_data_witness :
    BMtoBMP_convert_image bm8 pal8 10 100 =
      Except.error ConvErr.truncatedPixelData :=
  c8_truncated_pixel_data bm8 pal8 1 1 10 100 (by decide) (by decide)
    (by omega) (by omega) (by decide) (by simp [pal8]) (by omega)

/-- Witness for `c9_scanline_padding` at the 1×1 image. -/
theorem c9_scanline_padding_witness :
    output_image_to_file 1 1 [[30, 20, 10]] 100 =
      some ⟨fullBytes 1 1 [[30, 20, 10]], 38⟩ ∧
    pad32 1 = (4 - (1 * 3) % 4) % 4 ∧
    (1 * 3 + pad32 1) % 4 = 0 ∧
    (fullBytes 1 1 [[30, 20, 10]]).length = 54 + 1 * (3 * 1 + pad32 1) ∧
    ((fullBytes 1 1 [[30, 20, 10]]).drop
        (54 + (0 * (3 * 1 + pad32 1) + 3 * 1))).take (pad32 1) =
      List.replicate (pad32 1) 0 :=
  c9_scanline_padding 1 1 [[30, 20, 10]] 100 0 (by decide) (by omega)

/-- Witness for `c10_deterministic` at the concrete 1×1 input. -/
theorem c10_deterministic_witness :
    BMtoBMP_convert_image bm1 pal1 10 100 =
      BMtoBMP_convert_image bm1 pal1 10 100 :=
  c10_deterministic bm1 bm1 pal1 pal1 10 10 100 100 rfl rfl rfl rfl
